import Mathlib

/-!
Verification of the SCS conic-solver interface
(`cvxpy/reductions/solvers/conic_solvers/scs_conif.py`): the PSD
vectorization pair `scaled_lower_tri` / `tri_to_full`, the `apply` /
`invert` data split, the status map, dual-value extraction and
`solve_via_data`.

Matrix and vector entries are taken in the field ℚ[√2], represented by
pairs `a + b·√2` of rationals, so every numeric constant occurring in
the code (`0.5`, `1/np.sqrt(2)`, `np.sqrt(2)`) is represented exactly
and equality of results is decidable.
-/

/-- The ring ℚ[√2]: values `a + b·√2` with rational `a`, `b`. -/
structure Q2 where
  a : ℚ
  b : ℚ
deriving DecidableEq

namespace Q2

instance : Zero Q2 := ⟨⟨0, 0⟩⟩

instance : One Q2 := ⟨⟨1, 0⟩⟩

instance : Add Q2 := ⟨fun x y => ⟨x.a + y.a, x.b + y.b⟩⟩

instance : Neg Q2 := ⟨fun x => ⟨-x.a, -x.b⟩⟩

instance : Mul Q2 := ⟨fun x y => ⟨x.a * y.a + 2 * x.b * y.b, x.a * y.b + x.b * y.a⟩⟩

/-- `np.sqrt(2)` as an element of ℚ[√2]. -/
def sqrt2 : Q2 := ⟨0, 1⟩

/-- `1/np.sqrt(2)`: in ℚ[√2] the inverse of √2 is √2/2. -/
def invSqrt2 : Q2 := ⟨0, 1/2⟩

/-- The coefficient `0.5`. -/
def half : Q2 := ⟨1/2, 0⟩

end Q2

/-- Linear index of entry `(i, j)` of an `n×n` array in Fortran (column-major)
order, as computed by `np.ravel_multi_index(..., (n, n), order='F')`. -/
def ravelF (n : ℕ) (p : ℕ × ℕ) : ℕ := p.1 + p.2 * n

/-- `np.tril_indices(n, k)`: all pairs `(i, j)` with `j ≤ i + k`, listed row by
row (the order produced by `np.nonzero` on the mask). -/
def trilIndices (n : ℕ) (k : ℤ) : List (ℕ × ℕ) :=
  (List.range n).flatMap fun i =>
    ((List.range n).filter fun j : ℕ => decide ((j : ℤ) ≤ (i : ℤ) + k)).map fun j => (i, j)

/-- `np.triu_indices(n, k)`: all pairs `(i, j)` with `i + k ≤ j`, listed row by
row. -/
def triuIndices (n : ℕ) (k : ℤ) : List (ℕ × ℕ) :=
  (List.range n).flatMap fun i =>
    ((List.range n).filter fun j : ℕ => decide ((i : ℤ) + k ≤ (j : ℤ))).map fun j => (i, j)

/-- The value matrix built inside `scaled_lower_tri` / `psd_format_mat`:
`val_arr = np.zeros((rows, cols))`, then `val_arr[np.tril_indices(rows)] = 1/np.sqrt(2)`,
then `np.fill_diagonal(val_arr, 0.5)`. -/
def psdCoeff (n : ℕ) (p : ℕ × ℕ) : Q2 :=
  if p.1 < n ∧ p.2 < n then
    if p.1 = p.2 then Q2.half
    else if p.2 < p.1 then Q2.invSqrt2
    else 0
  else 0

/-- `col_arr = np.sort(np.ravel_multi_index(np.tril_indices(rows), (rows, cols), order='F'))`. -/
def col_arr (n : ℕ) : List ℕ :=
  List.insertionSort (· ≤ ·) ((trilIndices n 0).map (ravelF n))

/-- `val_arr = np.ravel(val_arr, order='F'); val_arr = val_arr[np.nonzero(val_arr)]`:
the flattened value matrix read in column-major order, zeros dropped. -/
def val_arr (n : ℕ) : List Q2 :=
  ((List.range (n * n)).map fun lin => psdCoeff n (lin % n, lin / n)).filter
    fun x => decide (x ≠ 0)

/-- `scaled_lower_tri(size)` (and the identical `SCS.psd_format_mat`): the CSC
matrix `sp.csc_matrix((val_arr, (row_arr, col_arr)), (entries, rows*cols))`.
Since `row_arr = np.arange(0, entries)`, the matrix is determined by the list
of `(value, column)` pairs, one per output row. -/
def scaled_lower_tri (size : ℕ) : List (Q2 × ℕ) :=
  (val_arr size).zip (col_arr size)

/-- Column-major (`order='F'`) linear view of an `n×n` matrix `M`. -/
def vecF (n : ℕ) (M : ℕ → ℕ → Q2) : ℕ → Q2 := fun lin => M (lin % n) (lin / n)

/-- Column-major flattening of an `n×n` matrix into a list of length `n*n`,
as produced by `np.reshape(full, n*n, order='F')`. -/
def vecFList (n : ℕ) (M : ℕ → ℕ → Q2) : List Q2 :=
  (List.range (n * n)).map (vecF n M)

/-- Action of a one-entry-per-row CSC matrix (value/column pairs) on the
flattened vector `x`. -/
def cscApply (triples : List (Q2 × ℕ)) (x : ℕ → Q2) : List Q2 :=
  triples.map fun vc => vc.1 * x vc.2

/-- The forward PSD vectorization of an `n×n` matrix `M`: the
`scaled_lower_tri` coefficient matrix applied to the column-major flattening
of the symmetric sum `M + Mᵀ` — the doubled-then-halved symmetric-sum
convention (the file's own comment `scaled_lower_tri(expr + expr.T)` with the
halving carried by the `0.5` and `1/√2` coefficients), under which the
diagonal of a symmetric matrix passes through unscaled. -/
def forwardPsdVec (n : ℕ) (M : ℕ → ℕ → Q2) : List Q2 :=
  cscApply (scaled_lower_tri n) (vecF n fun i j => M i j + M j i)

/-- Elementwise numpy fancy assignment `m[idx] = v`: positions are assigned in
list order, later assignments overwriting earlier ones. -/
def setEntries (m : ℕ × ℕ → Q2) (idx : List (ℕ × ℕ)) (v : List Q2) : ℕ × ℕ → Q2 :=
  (idx.zip v).foldl (fun acc pv q => if q = pv.1 then pv.2 else acc q) m

/-- Elementwise in-place `m[idx] /= np.sqrt(2)` (division by √2 is
multiplication by √2/2 = `invSqrt2`). -/
def divSqrt2Entries (m : ℕ × ℕ → Q2) (idx : List (ℕ × ℕ)) : ℕ × ℕ → Q2 :=
  idx.foldl (fun acc p q => if q = p then acc p * Q2.invSqrt2 else acc q) m

/-- `tri_to_full(lower_tri, n)`: starting from `np.zeros((n, n))`, assign
`full[np.triu_indices(n)] = lower_tri`, then `full[np.tril_indices(n)] = lower_tri`,
then divide the entries at `np.tril_indices(n, -1)` and at `np.triu_indices(n, 1)`
by √2, and return `np.reshape(full, n*n, order='F')`. -/
def tri_to_full (lower_tri : List Q2) (n : ℕ) : List Q2 :=
  let full0 : ℕ × ℕ → Q2 := fun _ => 0
  let full1 := setEntries full0 (triuIndices n 0) lower_tri
  let full2 := setEntries full1 (trilIndices n 0) lower_tri
  let full3 := divSqrt2Entries full2 (trilIndices n (-1))
  let full4 := divSqrt2Entries full3 (triuIndices n 1)
  (List.range (n * n)).map (vecF n fun i j => full4 (i, j))

/-- The lower-triangular index pairs `(i, j)` (with `j ≤ i`) of an `n×n`
matrix listed in column-major order: the reference enumeration named by the
spec ("the lower-triangular entries in column-major order"). -/
def lowerTriColMajor (n : ℕ) : List (ℕ × ℕ) :=
  (List.range n).flatMap fun j =>
    ((List.range n).filter fun i => decide (j ≤ i)).map fun i => (i, j)

/-- The cvxpy status vocabulary (the values of the `cvxpy.settings` constants
`OPTIMAL`, `OPTIMAL_INACCURATE`, `UNBOUNDED`, `UNBOUNDED_INACCURATE`,
`INFEASIBLE`, `INFEASIBLE_INACCURATE`, `SOLVER_ERROR`). -/
inductive CvxpyStatus
  | optimal
  | optimal_inaccurate
  | unbounded
  | unbounded_inaccurate
  | infeasible
  | infeasible_inaccurate
  | solver_error
deriving DecidableEq

/-- `SCS.STATUS_MAP`: the literal dictionary mapping SCS status strings to
cvxpy statuses, in the order written in the source. -/
def STATUS_MAP : List (String × CvxpyStatus) :=
  [("Solved", .optimal),
   ("Solved/Inaccurate", .optimal_inaccurate),
   ("Unbounded", .unbounded),
   ("Unbounded/Inaccurate", .unbounded_inaccurate),
   ("Infeasible", .infeasible),
   ("Infeasible/Inaccurate", .infeasible_inaccurate),
   ("Failure", .solver_error),
   ("Indeterminate", .solver_error),
   ("Interrupted", .solver_error)]

/-- Modelled from the spec: `s.SOLUTION_PRESENT` lives in `cvxpy/settings.py`,
which is not under `src/`; per the spec, only the "Solved" / "Solved/Inaccurate"
cases (mapped to optimal and optimal-inaccurate) signal a usable solution. -/
def SOLUTION_PRESENT : List CvxpyStatus := [.optimal, .optimal_inaccurate]

/-- Modelled from the spec: the attribute-bag key `s.SOLVE_TIME`. -/
def SOLVE_TIME : String := "solve_time"

/-- Modelled from the spec: the attribute-bag key `s.SETUP_TIME`. -/
def SETUP_TIME : String := "setup_time"

/-- Modelled from the spec: the attribute-bag key `s.NUM_ITERS`. -/
def NUM_ITERS : String := "num_iters"

/-- Modelled from the spec: `SCS.DUAL_VAR_ID`, the fixed dual-variable key of
the returned dual map; its concrete value is irrelevant here. -/
def DUAL_VAR_ID : ℕ := 0

/-- The `info` sub-mapping of an SCS raw result: keys `status`, `pobj`,
`solveTime`, `setupTime`, `iter`. -/
structure ScsInfo where
  status : String
  pobj : ℚ
  solveTime : ℚ
  setupTime : ℚ
  iter : ℚ
deriving DecidableEq

/-- An SCS raw result: primal vector `x`, dual vector `y`, slack vector `s`,
and the `info` sub-mapping. -/
structure ScsResult where
  x : List ℚ
  y : List ℚ
  s : List ℚ
  info : ScsInfo
deriving DecidableEq

/-- A cvxpy `Solution` record: status, optimal value, primal-variable map,
dual-variable map, attribute bag. -/
structure CvxpySolution where
  status : CvxpyStatus
  opt_val : Option ℚ
  primal_vars : List (ℕ × List ℚ)
  dual_vars : List (ℕ × List ℚ)
  attr : List (String × ℚ)
deriving DecidableEq

/-- Modelled from the spec: `failure_solution` (from
`cvxpy/reductions/solution.py`, not under `src/`) builds "a failure record
carrying only the status" with no primal/dual maps populated; it receives
nothing but the status. -/
def failure_solution (status : CvxpyStatus) : CvxpySolution :=
  { status := status, opt_val := none, primal_vars := [], dual_vars := [], attr := [] }

/-- The inverse data recorded by `SCS.apply`: the variable id
`inv_data[self.VAR_ID]` and the objective offset `inv_data[s.OFFSET]`. -/
structure SCSInvData where
  var_id : ℕ
  offset : ℚ
deriving DecidableEq

/-- The parameterized cone program produced upstream by
`formatted.apply_parameters()`: the homogenized matrix `prob.A` as a dense
list of rows whose last column is the constant term, and the homogenized cost
vector `prob.c` whose last entry is the constant term of the objective. -/
structure ParamConeProg where
  A : List (List ℚ)
  c : List ℚ

/-- The solver data produced by `SCS.apply`: `data[s.A]`, `data[s.B]`,
`data[s.C]`. -/
structure SCSProblemData where
  A : List (List ℚ)
  b : List ℚ
  c : List ℚ
deriving DecidableEq

/-- The parameter-splitting part of `SCS.apply`:
`data[s.C] = prob.c[:-1]`, `inv_data[s.OFFSET] = prob.c[-1]`,
`data[s.A] = -prob.A[:, :-1]`, `data[s.B] = prob.A[:, -1].A.flatten()`.
The row accessors use default `0` for an empty row or cost vector, a case the
homogenized program (at least one column) never produces. -/
def SCS_apply (prob : ParamConeProg) (x_id : ℕ) : SCSProblemData × SCSInvData :=
  ({ A := prob.A.map fun row => row.dropLast.map fun q => -q,
     b := prob.A.map fun row => row.getLastD 0,
     c := prob.c.dropLast },
   { var_id := x_id, offset := prob.c.getLastD 0 })

/-- `SCS.invert`: look the raw status string up in `STATUS_MAP` (a missing key
raises `KeyError` in Python, the `none` case here), build the attribute bag
from `solveTime`, `setupTime` and `iter`, and return either a populated
`Solution` (status in `SOLUTION_PRESENT`, optimal value `pobj + offset`,
primal map `{var_id: x}`, dual map `{DUAL_VAR_ID: y}`) or
`failure_solution(status)`. -/
def SCS_invert (solution : ScsResult) (inverse_data : SCSInvData) : Option CvxpySolution :=
  match List.lookup solution.info.status STATUS_MAP with
  | none => none
  | some status =>
    let attr := [(SOLVE_TIME, solution.info.solveTime),
                 (SETUP_TIME, solution.info.setupTime),
                 (NUM_ITERS, solution.info.iter)]
    if status ∈ SOLUTION_PRESENT then
      some { status := status,
             opt_val := some (solution.info.pobj + inverse_data.offset),
             primal_vars := [(inverse_data.var_id, solution.x)],
             dual_vars := [(DUAL_VAR_ID, solution.y)],
             attr := attr }
    else
      some (failure_solution status)

/-- A constraint as seen by `SCS.extract_dual_value`: its cone kind, with the
side length `constraint.shape[0]` for a PSD constraint and the row count
`constraint.size` for every other kind. -/
inductive CvxpyConstraint
  | psdC (dim : ℕ)
  | zeroC (size : ℕ)
  | nonNegC (size : ℕ)
  | socC (size : ℕ)
  | expC (size : ℕ)
deriving DecidableEq

/-- The number of rows a constraint occupies in the solver's dual vector:
`n(n+1)/2` for a PSD constraint of side `n`, its size otherwise. -/
def rowCount : CvxpyConstraint → ℕ
  | .psdC dim => dim * (dim + 1) / 2
  | .zeroC size => size
  | .nonNegC size => size
  | .socC size => size
  | .expC size => size

/-- Modelled from the spec: the generic `utilities.extract_dual_value` (from
`cvxpy/reductions/solvers/utilities.py`, not under `src/`) returns the slice
of the dual vector at the cursor unchanged and advances the cursor by the
constraint's row count. -/
def utilities_extract_dual_value (result_vec : List Q2) (offset : ℕ) (size : ℕ) :
    List Q2 × ℕ :=
  ((result_vec.drop offset).take size, offset + size)

/-- `SCS.extract_dual_value`: a PSD constraint of side `dim` consumes
`lower_tri_dim = dim*(dim+1)//2` entries starting at `offset`, passes the
slice through `tri_to_full` and returns the advanced offset; every other
constraint kind defers to the generic extraction. -/
def SCS_extract_dual_value (result_vec : List Q2) (offset : ℕ) :
    CvxpyConstraint → List Q2 × ℕ
  | .psdC dim =>
    let lower_tri_dim := dim * (dim + 1) / 2
    let new_offset := offset + lower_tri_dim
    let lower_tri := (result_vec.drop offset).take lower_tri_dim
    (tri_to_full lower_tri dim, new_offset)
  | c => utilities_extract_dual_value result_vec offset (rowCount c)

/-- `ConeDims`: the per-cone-family row counts, in the fixed order zero cone,
nonnegative orthant, second-order cones, exponential cones, PSD cones. -/
structure ConeDims where
  zero : ℕ
  nonpos : ℕ
  soc : List ℕ
  exp : ℕ
  psd : List ℕ
deriving DecidableEq

/-- The cones dictionary `scs` expects, with its fixed keys
`f`, `l`, `q`, `ep`, `s`. -/
structure ScsCones where
  f : ℕ
  l : ℕ
  q : List ℕ
  ep : ℕ
  s : List ℕ
deriving DecidableEq

/-- `dims_to_solver_dict`: the literal repackaging of a `ConeDims` into the
SCS cones dictionary. -/
def dims_to_solver_dict (cone_dims : ConeDims) : ScsCones :=
  { f := cone_dims.zero, l := cone_dims.nonpos, q := cone_dims.soc,
    ep := cone_dims.exp, s := cone_dims.psd }

/-- The `data` dict consumed by `solve_via_data`: `data[s.A]`, `data[s.B]`,
`data[s.C]` and `data[ConicSolver.DIMS]`. -/
structure SCSSolveData where
  A : List (List ℚ)
  b : List ℚ
  c : List ℚ
  dims : ConeDims

/-- The argument dict passed to `scs.solve`: keys `A`, `b`, `c` always, and
the warm-start keys `x`, `y`, `s` present exactly when `warm` is `some`. -/
structure ScsArgs where
  A : List (List ℚ)
  b : List ℚ
  c : List ℚ
  warm : Option (List ℚ × List ℚ × List ℚ)
deriving DecidableEq

/-- Modelled from the spec: `self.name()` returns the settings constant
`s.SCS`, the solver's name used as the cache key. -/
def SCS_name : String := "SCS"

/-- Python dict assignment `d[k] = v` on an association list: replace the
value at an existing key in place, append a fresh key at the end. -/
def dictSet {β : Type} (k : String) (v : β) : List (String × β) → List (String × β)
  | [] => [(k, v)]
  | (k', v') :: rest => if k = k' then (k, v) :: rest else (k', v') :: dictSet k v rest

/-- The argument dict built by `solve_via_data`: warm-start keys are filled
from the cache entry exactly when `warm_start` is set, a cache was supplied
and it contains an entry under this solver's name. -/
def scs_args (data : SCSSolveData) (warm_start : Bool)
    (solver_cache : Option (List (String × ScsResult))) : ScsArgs :=
  let base : ScsArgs := { A := data.A, b := data.b, c := data.c, warm := none }
  match solver_cache with
  | some cache =>
    if warm_start then
      match List.lookup SCS_name cache with
      | some prev => { base with warm := some (prev.x, prev.y, prev.s) }
      | none => base
    else base
  | none => base

/-- `solver_opts['eps'] = solver_opts.get('eps', 1e-4)`: the in-place update
of the caller's option map performed by `solve_via_data`. -/
def updated_opts (solver_opts : List (String × ℚ)) : List (String × ℚ) :=
  dictSet "eps" ((List.lookup "eps" solver_opts).getD (1 / 10000)) solver_opts

/-- `SCS.solve_via_data`, with the external `scs.solve` passed in as
`scs_solve` and the in-place mutations of `solver_opts` and `solver_cache`
returned alongside the raw result (explicit state passing). -/
def solve_via_data
    (scs_solve : ScsArgs → ScsCones → Bool → List (String × ℚ) → ScsResult)
    (data : SCSSolveData) (warm_start verbose : Bool)
    (solver_opts : List (String × ℚ))
    (solver_cache : Option (List (String × ScsResult))) :
    ScsResult × List (String × ℚ) × Option (List (String × ScsResult)) :=
  let args := scs_args data warm_start solver_cache
  let cones := dims_to_solver_dict data.dims
  let opts := updated_opts solver_opts
  let results := scs_solve args cones verbose opts
  match solver_cache with
  | some cache => (results, opts, some (dictSet SCS_name results cache))
  | none => (results, opts, none)

/-! Helper lemmas about `dictSet` (Python dict assignment on association
lists). -/

/-- The concrete raw result used to refute C6: a failed solve whose `info`
carries nonzero diagnostics. -/
def C6raw : ScsResult :=
  { x := [1], y := [2], s := [3],
    info := { status := "Failure", pobj := 7, solveTime := 11, setupTime := 13, iter := 17 } }

/-- The concrete inverse data used alongside `C6raw`. -/
def C6inv : SCSInvData := { var_id := 0, offset := 5 }

/-- The symmetric expansion described by the spec for `tri_to_full`: mirror
the column-major-stacked lower-triangular vector into both triangles of an
`n×n` matrix, divide every strictly off-diagonal entry by √2, leave the
diagonal as-is, and flatten in column-major order. -/
def specTriToFull (lower_tri : List Q2) (n : ℕ) : List Q2 :=
  (List.range (n * n)).map fun lin =>
    let i := lin % n
    let j := lin / n
    let lo := if j ≤ i then (i, j) else (j, i)
    let v := (List.lookup lo ((lowerTriColMajor n).zip lower_tri)).getD 0
    if i = j then v else v * Q2.invSqrt2

/-- A concrete symmetric 5×5 matrix with pairwise distinct lower-triangular
entries (`M i j = 10·min i j + max i j`). -/
def symM5 : ℕ → ℕ → Q2 := fun i j => ⟨((min i j * 10 + max i j : ℕ) : ℚ), 0⟩

/-- The concrete length-6 lower-triangular vector (n = 3) used to refute C3. -/
def C3vec : List Q2 := [⟨0, 0⟩, ⟨10, 0⟩, ⟨20, 0⟩, ⟨30, 0⟩, ⟨40, 0⟩, ⟨50, 0⟩]

/-- A concrete symmetric 2×2 matrix used to instantiate C2. -/
def sym2 : ℕ → ℕ → Q2 := fun i j => if i = j then ⟨1, 0⟩ else ⟨2, 0⟩

theorem Q2.add_mk (a b c d : ℚ) : (⟨a, b⟩ + ⟨c, d⟩ : Q2) = ⟨a + c, b + d⟩ := rfl

theorem Q2.mul_mk (a b c d : ℚ) :
    (⟨a, b⟩ * ⟨c, d⟩ : Q2) = ⟨a * c + 2 * b * d, a * d + b * c⟩ := rfl

theorem lookup_dictSet_self {β : Type} (k : String) (v : β) (d : List (String × β)) :
    List.lookup k (dictSet k v d) = some v := by
  induction d with
  | nil => simp [dictSet, List.lookup]
  | cons hd tl ih =>
    obtain ⟨k', v'⟩ := hd
    by_cases h : k = k'
    · simp [dictSet, h, List.lookup]
    · simp only [dictSet, if_neg h, List.lookup]
      have : (k == k') = false := by simp [h]
      simp [this, ih]

theorem lookup_dictSet_ne {β : Type} (k k' : String) (v : β) (d : List (String × β))
    (h : k' ≠ k) : List.lookup k' (dictSet k v d) = List.lookup k' d := by
  induction d with
  | nil =>
    have e : (k' == k) = false := by simp [h]
    simp [dictSet, List.lookup, e]
  | cons hd tl ih =>
    obtain ⟨k0, v0⟩ := hd
    by_cases h0 : k = k0
    · subst h0
      simp only [dictSet, if_pos rfl, List.lookup]
      have : (k' == k) = false := by simp [h]
      simp [this]
    · simp only [dictSet, if_neg h0, List.lookup]
      by_cases h1 : k' = k0
      · simp [h1]
      · have e1 : (k' == k0) = false := by simp [h1]
        simp [e1, ih]

/-- C8: the solver receives the cached `(x, y, s)` triple as warm-start
vectors exactly when the warm-start flag is set, a cache was supplied and the
cache has an entry under this solver's name, and otherwise the argument dict
carries no warm-start keys; after the call, whenever a cache was supplied the
raw result is stored in it under the solver's name, overwriting any previous
entry, and no cache is created otherwise. -/
theorem C8_warm_start_and_cache
    (scs_solve : ScsArgs → ScsCones → Bool → List (String × ℚ) → ScsResult)
    (data : SCSSolveData) (warm_start verbose : Bool)
    (solver_opts : List (String × ℚ))
    (solver_cache : Option (List (String × ScsResult))) :
    ((scs_args data warm_start solver_cache).warm ≠ none ↔
      warm_start = true ∧ ∃ cache, solver_cache = some cache ∧
        ∃ prev, List.lookup SCS_name cache = some prev) ∧
    (∀ cache prev, solver_cache = some cache →
      List.lookup SCS_name cache = some prev → warm_start = true →
      (scs_args data warm_start solver_cache).warm = some (prev.x, prev.y, prev.s)) ∧
    ((scs_args data warm_start solver_cache).A = data.A ∧
      (scs_args data warm_start solver_cache).b = data.b ∧
      (scs_args data warm_start solver_cache).c = data.c) ∧
    ((solve_via_data scs_solve data warm_start verbose solver_opts solver_cache).1 =
      scs_solve (scs_args data warm_start solver_cache)
        (dims_to_solver_dict data.dims) verbose (updated_opts solver_opts)) ∧
    (∀ cache, solver_cache = some cache →
      (solve_via_data scs_solve data warm_start verbose solver_opts solver_cache).2.2 =
        some (dictSet SCS_name
          (solve_via_data scs_solve data warm_start verbose solver_opts solver_cache).1
          cache) ∧
      List.lookup SCS_name
        (dictSet SCS_name
          (solve_via_data scs_solve data warm_start verbose solver_opts solver_cache).1
          cache) =
        some (solve_via_data scs_solve data warm_start verbose solver_opts solver_cache).1) ∧
    (solver_cache = none →
      (solve_via_data scs_solve data warm_start verbose solver_opts solver_cache).2.2 = none) := by
  refine ⟨?_, ?_, ?_, ?_, ?_, ?_⟩
  · cases solver_cache with
    | none => simp [scs_args]
    | some cache =>
      cases warm_start with
      | false => simp [scs_args]
      | true =>
        cases h : List.lookup SCS_name cache with
        | none => simp [scs_args, h]
        | some prev => simp [scs_args, h]
  · intro cache prev hc hl hw
    subst hc; subst hw
    simp [scs_args, hl]
  · cases solver_cache with
    | none => simp [scs_args]
    | some cache =>
      cases warm_start with
      | false => simp [scs_args]
      | true =>
        cases h : List.lookup SCS_name cache with
        | none => simp [scs_args, h]
        | some prev => simp [scs_args, h]
  · cases solver_cache <;> rfl
  · intro cache hc
    subst hc
    exact ⟨rfl, lookup_dictSet_self _ _ _⟩
  · intro hc
    subst hc
    rfl

/-- C8 witness: a concrete warm-started call with a one-entry cache. -/
theorem C8_warm_start_and_cache_witness :
    (scs_args ⟨[[1]], [2], [3], ⟨0, 0, [], 0, []⟩⟩ true
        (some [("SCS", ⟨[4], [5], [6], ⟨"Solved", 0, 0, 0, 0⟩⟩)])).warm =
      some ([4], [5], [6]) ∧
    (solve_via_data (fun _ _ _ _ => ⟨[7], [8], [9], ⟨"Solved", 1, 1, 1, 1⟩⟩)
        ⟨[[1]], [2], [3], ⟨0, 0, [], 0, []⟩⟩ true false []
        (some [("SCS", ⟨[4], [5], [6], ⟨"Solved", 0, 0, 0, 0⟩⟩)])).2.2 =
      some (dictSet SCS_name ⟨[7], [8], [9], ⟨"Solved", 1, 1, 1, 1⟩⟩
        [("SCS", ⟨[4], [5], [6], ⟨"Solved", 0, 0, 0, 0⟩⟩)]) := by
  constructor
  · exact (C8_warm_start_and_cache (fun _ _ _ _ => ⟨[7], [8], [9], ⟨"Solved", 1, 1, 1, 1⟩⟩)
      ⟨[[1]], [2], [3], ⟨0, 0, [], 0, []⟩⟩ true false []
      (some [("SCS", ⟨[4], [5], [6], ⟨"Solved", 0, 0, 0, 0⟩⟩)])).2.1
      [("SCS", ⟨[4], [5], [6], ⟨"Solved", 0, 0, 0, 0⟩⟩)]
      ⟨[4], [5], [6], ⟨"Solved", 0, 0, 0, 0⟩⟩ rfl (by with_unfolding_all rfl) rfl
  · exact ((C8_warm_start_and_cache (fun _ _ _ _ => ⟨[7], [8], [9], ⟨"Solved", 1, 1, 1, 1⟩⟩)
      ⟨[[1]], [2], [3], ⟨0, 0, [], 0, []⟩⟩ true false []
      (some [("SCS", ⟨[4], [5], [6], ⟨"Solved", 0, 0, 0, 0⟩⟩)])).2.2.2.2.1
      [("SCS", ⟨[4], [5], [6], ⟨"Solved", 0, 0, 0, 0⟩⟩)] rfl).1

/-- C9: the `eps` option handed to the solver equals the caller-supplied value
when the option map has an `eps` key and `1e-4` otherwise, and the option map
passed to the solver call is exactly `updated_opts solver_opts`. -/
theorem C9_eps_default
    (scs_solve : ScsArgs → ScsCones → Bool → List (String × ℚ) → ScsResult)
    (data : SCSSolveData) (warm_start verbose : Bool)
    (solver_opts : List (String × ℚ))
    (solver_cache : Option (List (String × ScsResult))) :
    (List.lookup "eps" (updated_opts solver_opts) =
      some ((List.lookup "eps" solver_opts).getD (1 / 10000))) ∧
    (∀ v, List.lookup "eps" solver_opts = some v →
      List.lookup "eps" (updated_opts solver_opts) = some v) ∧
    (List.lookup "eps" solver_opts = none →
      List.lookup "eps" (updated_opts solver_opts) = some (1 / 10000)) ∧
    ((solve_via_data scs_solve data warm_start verbose solver_opts solver_cache).1 =
      scs_solve (scs_args data warm_start solver_cache)
        (dims_to_solver_dict data.dims) verbose (updated_opts solver_opts)) := by
  refine ⟨lookup_dictSet_self _ _ _, ?_, ?_, ?_⟩
  · intro v hv
    rw [updated_opts, hv]
    exact lookup_dictSet_self _ _ _
  · intro hv
    rw [updated_opts, hv]
    exact lookup_dictSet_self _ _ _
  · cases solver_cache <;> rfl

/-- C9 witness: with no `eps` key the solver sees `eps = 1e-4`, with an
explicit key it sees the caller's value. -/
theorem C9_eps_default_witness :
    List.lookup "eps" (updated_opts []) = some (1 / 10000) ∧
    List.lookup "eps" (updated_opts [("eps", 1 / 2)]) = some (1 / 2) := by
  constructor
  · exact (C9_eps_default (fun _ _ _ _ => ⟨[], [], [], ⟨"Solved", 0, 0, 0, 0⟩⟩)
      ⟨[], [], [], ⟨0, 0, [], 0, []⟩⟩ false false [] none).2.2.1 rfl
  · exact (C9_eps_default (fun _ _ _ _ => ⟨[], [], [], ⟨"Solved", 0, 0, 0, 0⟩⟩)
      ⟨[], [], [], ⟨0, 0, [], 0, []⟩⟩ false false [("eps", 1 / 2)] none).2.1 (1 / 2)
      (by with_unfolding_all rfl)

/-- C10: the caller-visible option map after `solve_via_data` is
`updated_opts solver_opts`; it always carries an `eps` key (the caller's value
if present, `1e-4` otherwise) and agrees with the original map on every other
key. -/
theorem C10_opts_mutation
    (scs_solve : ScsArgs → ScsCones → Bool → List (String × ℚ) → ScsResult)
    (data : SCSSolveData) (warm_start verbose : Bool)
    (solver_opts : List (String × ℚ))
    (solver_cache : Option (List (String × ScsResult))) :
    ((solve_via_data scs_solve data warm_start verbose solver_opts solver_cache).2.1 =
      updated_opts solver_opts) ∧
    (List.lookup "eps" (updated_opts solver_opts) =
      some ((List.lookup "eps" solver_opts).getD (1 / 10000))) ∧
    (∀ k, k ≠ "eps" →
      List.lookup k (updated_opts solver_opts) = List.lookup k solver_opts) := by
  refine ⟨?_, lookup_dictSet_self _ _ _, ?_⟩
  · cases solver_cache <;> rfl
  · intro k hk
    exact lookup_dictSet_ne _ _ _ _ hk

/-- C10 witness: a concrete option map keeps its other key unchanged and
gains `eps`. -/
theorem C10_opts_mutation_witness :
    (solve_via_data (fun _ _ _ _ => ⟨[], [], [], ⟨"Solved", 0, 0, 0, 0⟩⟩)
        ⟨[], [], [], ⟨0, 0, [], 0, []⟩⟩ false false [("alpha", 3)] none).2.1 =
      updated_opts [("alpha", 3)] ∧
    List.lookup "alpha" (updated_opts [("alpha", 3)]) =
      List.lookup "alpha" [("alpha", 3)] := by
  constructor
  · exact (C10_opts_mutation (fun _ _ _ _ => ⟨[], [], [], ⟨"Solved", 0, 0, 0, 0⟩⟩)
      ⟨[], [], [], ⟨0, 0, [], 0, []⟩⟩ false false [("alpha", 3)] none).1
  · exact (C10_opts_mutation (fun _ _ _ _ => ⟨[], [], [], ⟨"Solved", 0, 0, 0, 0⟩⟩)
      ⟨[], [], [], ⟨0, 0, [], 0, []⟩⟩ false false [("alpha", 3)] none).2.2 "alpha"
      (by decide)

/-- C7: `extract_dual_value` advances the cursor by exactly the constraint's
row count; a PSD constraint of side `n` consumes the `n(n+1)/2` entries
starting at the offset and returns them through `tri_to_full`, and every
non-PSD constraint kind returns its slice unchanged via the generic
extraction. -/
theorem C7_extract_dual_cursor (result_vec : List Q2) (offset : ℕ)
    (c : CvxpyConstraint) :
    ((SCS_extract_dual_value result_vec offset c).2 = offset + rowCount c) ∧
    (∀ dim, c = .psdC dim →
      (SCS_extract_dual_value result_vec offset c).1 =
        tri_to_full ((result_vec.drop offset).take (dim * (dim + 1) / 2)) dim) ∧
    ((∀ dim, c ≠ .psdC dim) →
      (SCS_extract_dual_value result_vec offset c).1 =
        (result_vec.drop offset).take (rowCount c) ∧
      (SCS_extract_dual_value result_vec offset c) =
        utilities_extract_dual_value result_vec offset (rowCount c)) := by
  cases c <;>
    simp [SCS_extract_dual_value, utilities_extract_dual_value, rowCount]

/-- C7 witness: a PSD constraint of side 2 at offset 1 consumes entries 1..3
of the dual vector and moves the cursor to 4; a nonnegative constraint of size
2 returns its slice unchanged. -/
theorem C7_extract_dual_cursor_witness :
    (SCS_extract_dual_value [⟨1, 0⟩, ⟨2, 0⟩, ⟨3, 0⟩, ⟨4, 0⟩, ⟨5, 0⟩] 1 (.psdC 2)).2 =
      1 + rowCount (.psdC 2) ∧
    (SCS_extract_dual_value [⟨1, 0⟩, ⟨2, 0⟩, ⟨3, 0⟩, ⟨4, 0⟩, ⟨5, 0⟩] 1 (.psdC 2)).1 =
      tri_to_full [⟨2, 0⟩, ⟨3, 0⟩, ⟨4, 0⟩] 2 ∧
    (SCS_extract_dual_value [⟨1, 0⟩, ⟨2, 0⟩, ⟨3, 0⟩, ⟨4, 0⟩, ⟨5, 0⟩] 1 (.nonNegC 2)).1 =
      [⟨2, 0⟩, ⟨3, 0⟩] := by
  refine ⟨(C7_extract_dual_cursor _ 1 (.psdC 2)).1, ?_, ?_⟩
  · have h := (C7_extract_dual_cursor
      [⟨1, 0⟩, ⟨2, 0⟩, ⟨3, 0⟩, ⟨4, 0⟩, ⟨5, 0⟩] 1 (.psdC 2)).2.1 2 rfl
    rw [h]
    rfl
  · have h := ((C7_extract_dual_cursor
      [⟨1, 0⟩, ⟨2, 0⟩, ⟨3, 0⟩, ⟨4, 0⟩, ⟨5, 0⟩] 1 (.nonNegC 2)).2.2
      (by intro dim hdim; cases hdim)).1
    rw [h]
    rfl

/-- C5: the status map is total on exactly the nine SCS status strings, sends
each to the stated cvxpy status, and `invert` populates primal and dual maps
only in the "Solved" / "Solved/Inaccurate" cases, every other mapped status
yielding a failure record that carries the status and no primal/dual maps. -/
theorem C5_status_map_and_failure (st : String) (raw : ScsResult) (inv : SCSInvData) :
    ((List.lookup st STATUS_MAP).isSome = true ↔
      st ∈ ["Solved", "Solved/Inaccurate", "Unbounded", "Unbounded/Inaccurate",
            "Infeasible", "Infeasible/Inaccurate", "Failure", "Indeterminate",
            "Interrupted"]) ∧
    (List.lookup "Solved" STATUS_MAP = some .optimal ∧
     List.lookup "Solved/Inaccurate" STATUS_MAP = some .optimal_inaccurate ∧
     List.lookup "Unbounded" STATUS_MAP = some .unbounded ∧
     List.lookup "Unbounded/Inaccurate" STATUS_MAP = some .unbounded_inaccurate ∧
     List.lookup "Infeasible" STATUS_MAP = some .infeasible ∧
     List.lookup "Infeasible/Inaccurate" STATUS_MAP = some .infeasible_inaccurate ∧
     List.lookup "Failure" STATUS_MAP = some .solver_error ∧
     List.lookup "Indeterminate" STATUS_MAP = some .solver_error ∧
     List.lookup "Interrupted" STATUS_MAP = some .solver_error) ∧
    (∀ s0, List.lookup st STATUS_MAP = some s0 →
      (s0 ∈ SOLUTION_PRESENT ↔ st = "Solved" ∨ st = "Solved/Inaccurate")) ∧
    (∀ s0, List.lookup raw.info.status STATUS_MAP = some s0 →
      (s0 ∈ SOLUTION_PRESENT →
        SCS_invert raw inv = some ⟨s0, some (raw.info.pobj + inv.offset),
          [(inv.var_id, raw.x)], [(DUAL_VAR_ID, raw.y)],
          [(SOLVE_TIME, raw.info.solveTime), (SETUP_TIME, raw.info.setupTime),
           (NUM_ITERS, raw.info.iter)]⟩) ∧
      (s0 ∉ SOLUTION_PRESENT →
        SCS_invert raw inv = some (failure_solution s0) ∧
        (failure_solution s0).status = s0 ∧
        (failure_solution s0).primal_vars = [] ∧
        (failure_solution s0).dual_vars = [] ∧
        (failure_solution s0).opt_val = none)) ∧
    (List.lookup raw.info.status STATUS_MAP = none → SCS_invert raw inv = none) := by
  refine ⟨?_, ?_, ?_, ?_, ?_⟩
  · simp only [STATUS_MAP, List.lookup, List.mem_cons, List.not_mem_nil, or_false]
    repeat' split
    all_goals simp_all
  · refine ⟨?_, ?_, ?_, ?_, ?_, ?_, ?_, ?_, ?_⟩ <;> rfl
  · intro s0 h
    simp only [STATUS_MAP, List.lookup] at h
    repeat' split at h
    all_goals (cases h <;> simp_all [SOLUTION_PRESENT])
  · intro s0 h
    constructor
    · intro hm
      unfold SCS_invert
      rw [h]
      simp [hm]
    · intro hm
      unfold SCS_invert
      rw [h]
      simp [if_neg hm, failure_solution]
  · intro h
    unfold SCS_invert
    rw [h]

/-- C5 witness: a concrete "Solved" result is populated and a concrete
"Infeasible" result yields the bare failure record. -/
theorem C5_status_map_and_failure_witness :
    SCS_invert ⟨[1], [2], [3], ⟨"Solved", 7, 1, 1, 5⟩⟩ ⟨0, 2⟩ =
      some ⟨.optimal, some (7 + 2), [(0, [1])], [(DUAL_VAR_ID, [2])],
        [(SOLVE_TIME, 1), (SETUP_TIME, 1), (NUM_ITERS, 5)]⟩ ∧
    SCS_invert ⟨[1], [2], [3], ⟨"Infeasible", 7, 1, 1, 5⟩⟩ ⟨0, 2⟩ =
      some (failure_solution .infeasible) := by
  constructor
  · exact ((C5_status_map_and_failure "Solved"
      ⟨[1], [2], [3], ⟨"Solved", 7, 1, 1, 5⟩⟩ ⟨0, 2⟩).2.2.2.1 .optimal
      (by with_unfolding_all rfl)).1 (by decide)
  · exact (((C5_status_map_and_failure "Infeasible"
      ⟨[1], [2], [3], ⟨"Infeasible", 7, 1, 1, 5⟩⟩ ⟨0, 2⟩).2.2.2.1 .infeasible
      (by with_unfolding_all rfl)).2 (by decide)).1

/-- C6 counterexample: for a raw result with status "Failure" the returned
solution exists but its attribute bag is empty — the solver's reported solve
time (11) is not copied through, contradicting the claim that the diagnostics
land in the attribute bag for every status. -/
theorem C6_counterexample :
    SCS_invert C6raw C6inv = some (failure_solution .solver_error) ∧
    (SCS_invert C6raw C6inv).bind (fun sol => List.lookup SOLVE_TIME sol.attr) = none ∧
    C6raw.info.solveTime = 11 := by
  with_unfolding_all decide

/-- C6 amended: the diagnostics (solve time, setup time, iteration count) are
copied verbatim into the attribute bag exactly for the statuses in
`SOLUTION_PRESENT`; for every other mapped status the returned record carries
only the status, with an empty attribute bag. -/
theorem C6_attr_only_when_present (raw : ScsResult) (inv : SCSInvData)
    (s0 : CvxpyStatus) (h : List.lookup raw.info.status STATUS_MAP = some s0) :
    (s0 ∈ SOLUTION_PRESENT →
      (SCS_invert raw inv).map CvxpySolution.attr =
        some [(SOLVE_TIME, raw.info.solveTime), (SETUP_TIME, raw.info.setupTime),
              (NUM_ITERS, raw.info.iter)]) ∧
    (s0 ∉ SOLUTION_PRESENT →
      (SCS_invert raw inv).map CvxpySolution.attr = some []) := by
  constructor
  · intro hm
    unfold SCS_invert
    rw [h]
    simp [hm]
  · intro hm
    unfold SCS_invert
    rw [h]
    simp [if_neg hm, failure_solution]

/-- C6 amended witness: diagnostics present for a "Solved" result, absent for
a "Failure" result. -/
theorem C6_attr_only_when_present_witness :
    (SCS_invert ⟨[1], [2], [3], ⟨"Solved", 7, 11, 13, 17⟩⟩ C6inv).map CvxpySolution.attr =
      some [(SOLVE_TIME, 11), (SETUP_TIME, 13), (NUM_ITERS, 17)] ∧
    (SCS_invert C6raw C6inv).map CvxpySolution.attr = some [] := by
  constructor
  · exact (C6_attr_only_when_present ⟨[1], [2], [3], ⟨"Solved", 7, 11, 13, 17⟩⟩ C6inv
      .optimal (by with_unfolding_all rfl)).1 (by decide)
  · exact (C6_attr_only_when_present C6raw C6inv
      .solver_error (by with_unfolding_all rfl)).2 (by decide)

/-- For a list of length `m + 1`, the entry at index `m` is its last entry
(as read by `getLastD` with an irrelevant default). -/
theorem getElem?_last_of_length {l : List ℚ} {m : ℕ} (h : l.length = m + 1) :
    l[m]? = some (l.getLastD 0) := by
  have hm : m < l.length := by omega
  rw [List.getLastD_eq_getLast?, List.getLast?_eq_getElem?, h]
  simp only [Nat.add_sub_cancel]
  rw [List.getElem?_eq_getElem hm]
  rfl

/-- C4: `apply` splits the homogenized data so that `b` is the last column of
the parameterized affine map, `A` is the negation of the remaining columns,
`c` is the cost vector with its last entry stripped and the stripped entry is
retained as the offset; and for every raw result with a usable status,
`invert` reports the optimal value as the solver's primal objective plus that
stored offset. -/
theorem C4_apply_split (prob : ParamConeProg) (x_id : ℕ) (m : ℕ)
    (hc : prob.c.length = m + 1) :
    ((SCS_apply prob x_id).2.var_id = x_id) ∧
    (prob.c[m]? = some (SCS_apply prob x_id).2.offset) ∧
    ((SCS_apply prob x_id).1.c = prob.c.take m) ∧
    (∀ (i : ℕ) (row : List ℚ), prob.A[i]? = some row → row.length = m + 1 →
      (SCS_apply prob x_id).1.b[i]? = row[m]? ∧
      (SCS_apply prob x_id).1.A[i]? = some (row.dropLast.map fun q => -q) ∧
      (∀ j, j < m → (row.dropLast.map fun q => -q)[j]? = (row[j]?).map fun q => -q)) ∧
    (∀ raw inv2 s0, List.lookup raw.info.status STATUS_MAP = some s0 →
      s0 ∈ SOLUTION_PRESENT →
      (SCS_invert raw inv2).bind CvxpySolution.opt_val =
        some (raw.info.pobj + inv2.offset)) := by
  refine ⟨rfl, ?_, ?_, ?_, ?_⟩
  · exact getElem?_last_of_length hc
  · show prob.c.dropLast = prob.c.take m
    rw [List.dropLast_eq_take, hc]
    simp
  · intro i row hrow hlen
    refine ⟨?_, ?_, ?_⟩
    · show (prob.A.map fun row => row.getLastD 0)[i]? = row[m]?
      rw [List.getElem?_map, hrow, getElem?_last_of_length hlen]
      rfl
    · show (prob.A.map fun row => row.dropLast.map fun q => -q)[i]? = _
      rw [List.getElem?_map, hrow]
      rfl
    · intro j hj
      rw [List.getElem?_map, List.dropLast_eq_take, hlen]
      simp only [Nat.add_sub_cancel]
      rw [List.getElem?_take_of_lt hj]
  · intro raw inv2 s0 h hm
    unfold SCS_invert
    rw [h]
    simp [hm]

/-- C4 witness: a concrete two-column homogenized program and a concrete
solved raw result. -/
theorem C4_apply_split_witness :
    (SCS_apply ⟨[[1, 2]], [3, 4]⟩ 9).2.var_id = 9 ∧
    ([3, 4] : List ℚ)[1]? = some (SCS_apply ⟨[[1, 2]], [3, 4]⟩ 9).2.offset ∧
    (SCS_apply ⟨[[1, 2]], [3, 4]⟩ 9).1.c = ([3, 4] : List ℚ).take 1 ∧
    (SCS_apply ⟨[[1, 2]], [3, 4]⟩ 9).1.b[0]? = (([1, 2] : List ℚ))[1]? ∧
    (SCS_invert ⟨[1], [2], [3], ⟨"Solved", 7, 1, 1, 5⟩⟩ ⟨0, 2⟩).bind
      CvxpySolution.opt_val = some (7 + 2) := by
  have h := C4_apply_split ⟨[[1, 2]], [3, 4]⟩ 9 1 rfl
  refine ⟨h.1, h.2.1, h.2.2.1, ?_, ?_⟩
  · exact (h.2.2.2.1 0 [1, 2] rfl rfl).1
  · exact h.2.2.2.2 ⟨[1], [2], [3], ⟨"Solved", 7, 1, 1, 5⟩⟩ ⟨0, 2⟩ .optimal
      (by with_unfolding_all rfl) (by decide)

/-- C1: evaluating the round trip at a concrete symmetric 5×5 matrix: the
input is symmetric, yet `tri_to_full` applied to the forward vectorization
does not return the flattened input matrix (the code writes the column-major
stacked vector through numpy's row-major `tril_indices`, scrambling every
matrix of side at least 3). -/
theorem C1_roundtrip_fails_at_n5 :
    (∀ i j, symM5 i j = symM5 j i) ∧
    tri_to_full (forwardPsdVec 5 symM5) 5 ≠ vecFList 5 symM5 ∧
    tri_to_full (forwardPsdVec 1 (fun _ _ => ⟨3, 0⟩)) 1 = vecFList 1 (fun _ _ => ⟨3, 0⟩) := by
  refine ⟨?_, ?_, ?_⟩
  · intro i j
    simp [symM5, Nat.min_comm i j, Nat.max_comm i j]
  · with_unfolding_all decide
  · with_unfolding_all decide

/-- C3: evaluating `tri_to_full` on a concrete length-6 vector for `n = 3`:
the output is not the mirrored symmetric expansion the claim describes — the
diagonal entry (1,1) receives the vector entry belonging to position (2,0)
and vice versa, because the column-major-stacked input is written through
numpy's row-major `tril_indices`. -/
theorem C3_tri_to_full_misplaces :
    tri_to_full C3vec 3 =
      [⟨0, 0⟩, ⟨0, 5⟩, ⟨0, 15⟩, ⟨0, 5⟩, ⟨20, 0⟩, ⟨0, 20⟩, ⟨0, 10⟩, ⟨0, 20⟩, ⟨50, 0⟩] ∧
    specTriToFull C3vec 3 =
      [⟨0, 0⟩, ⟨0, 5⟩, ⟨0, 10⟩, ⟨0, 5⟩, ⟨30, 0⟩, ⟨0, 20⟩, ⟨0, 10⟩, ⟨0, 20⟩, ⟨50, 0⟩] ∧
    tri_to_full C3vec 3 ≠ specTriToFull C3vec 3 := by
  with_unfolding_all decide

theorem mem_trilIndices {n i j : ℕ} :
    (i, j) ∈ trilIndices n 0 ↔ j ≤ i ∧ i < n := by
  simp only [trilIndices, List.mem_flatMap, List.mem_map, List.mem_filter,
    List.mem_range, decide_eq_true_eq, Prod.mk.injEq]
  constructor
  · rintro ⟨i', hi', j', ⟨hj', hle⟩, rfl, rfl⟩
    exact ⟨by omega, hi'⟩
  · rintro ⟨hle, hi⟩
    exact ⟨i, hi, j, ⟨by omega, by omega⟩, rfl, rfl⟩

theorem nodup_trilIndices (n : ℕ) : (trilIndices n 0).Nodup := by
  unfold trilIndices
  rw [List.nodup_flatMap]
  refine ⟨?_, ?_⟩
  · intro i _
    refine List.Nodup.map ?_ (List.Nodup.filter _ (List.nodup_range n))
    intro a b hab
    simpa using hab
  · refine List.Pairwise.imp ?_ (List.sorted_lt_range n)
    intro i i' hii x hx hx'
    simp only [List.mem_map, List.mem_filter] at hx hx'
    obtain ⟨j, _, rfl⟩ := hx
    obtain ⟨j', _, h'⟩ := hx'
    have : i' = i := congrArg Prod.fst h'
    omega

theorem ravelF_mod {n i j : ℕ} (hi : i < n) : (i + j * n) % n = i := by
  rw [Nat.add_mul_mod_self_right]
  exact Nat.mod_eq_of_lt hi

theorem ravelF_div {n i j : ℕ} (hi : i < n) : (i + j * n) / n = j := by
  rw [Nat.add_mul_div_right _ _ (by omega : 0 < n), Nat.div_eq_of_lt hi]
  omega

theorem ravelF_lt {n i j : ℕ} (hi : i < n) (hj : j < n) : i + j * n < n * n := by
  have h1 : i + j * n < (j + 1) * n := by
    rw [Nat.add_mul, Nat.one_mul]
    omega
  have h2 : (j + 1) * n ≤ n * n := Nat.mul_le_mul_right n (by omega)
  omega

theorem mem_trilMap {n lin : ℕ} :
    lin ∈ (trilIndices n 0).map (ravelF n) ↔ lin < n * n ∧ lin / n ≤ lin % n := by
  rw [List.mem_map]
  constructor
  · rintro ⟨⟨i, j⟩, hp, rfl⟩
    rw [mem_trilIndices] at hp
    obtain ⟨hle, hi⟩ := hp
    simp only [ravelF]
    rw [ravelF_mod hi, ravelF_div hi]
    exact ⟨ravelF_lt hi (by omega), hle⟩
  · rintro ⟨hlt, hle⟩
    have hn : 0 < n := by
      rcases Nat.eq_zero_or_pos n with h | h
      · subst h; omega
      · exact h
    refine ⟨(lin % n, lin / n), ?_, ?_⟩
    · rw [mem_trilIndices]
      exact ⟨hle, Nat.mod_lt _ hn⟩
    · simp only [ravelF]
      exact Nat.mod_add_div' lin n

theorem nodup_trilMap (n : ℕ) : ((trilIndices n 0).map (ravelF n)).Nodup := by
  refine List.Nodup.map_on ?_ (nodup_trilIndices n)
  rintro ⟨i, j⟩ hp ⟨i', j'⟩ hp' h
  rw [mem_trilIndices] at hp hp'
  simp only [ravelF] at h
  have h1 : i = i' := by
    have e := congrArg (· % n) h
    simp only at e
    rw [ravelF_mod hp.2, ravelF_mod hp'.2] at e
    exact e
  have h2 : j = j' := by
    have e := congrArg (· / n) h
    simp only at e
    rw [ravelF_div hp.2, ravelF_div hp'.2] at e
    exact e
  simp [h1, h2]

theorem col_arr_eq (n : ℕ) :
    col_arr n = (List.range (n * n)).filter fun lin => decide (lin / n ≤ lin % n) := by
  refine List.eq_of_perm_of_sorted ?_ (List.sorted_insertionSort _ _) ?_
  · refine List.Perm.trans (List.perm_insertionSort _ _) ?_
    refine List.perm_of_nodup_nodup_toFinset_eq (nodup_trilMap n)
      (List.Nodup.filter _ (List.nodup_range (n * n))) ?_
    ext lin
    simp only [List.mem_toFinset, List.mem_filter, List.mem_range,
      decide_eq_true_eq, mem_trilMap]
  · exact List.Pairwise.filter _ (List.sorted_le_range (n * n))

theorem Q2.half_ne_zero : Q2.half ≠ 0 := by with_unfolding_all decide

theorem Q2.invSqrt2_ne_zero : Q2.invSqrt2 ≠ 0 := by with_unfolding_all decide

theorem val_arr_eq (n : ℕ) :
    val_arr n = ((List.range (n * n)).filter fun lin => decide (lin / n ≤ lin % n)).map
      fun lin => psdCoeff n (lin % n, lin / n) := by
  unfold val_arr
  rw [List.filter_map]
  congr 1
  refine List.filter_congr ?_
  intro lin hlin
  rw [List.mem_range] at hlin
  have hn : 0 < n := by
    rcases Nat.eq_zero_or_pos n with h | h
    · subst h; omega
    · exact h
  have hmod : lin % n < n := Nat.mod_lt _ hn
  have hdiv : lin / n < n := by
    rw [Nat.div_lt_iff_lt_mul hn]
    omega
  show decide (psdCoeff n (lin % n, lin / n) ≠ 0) = decide (lin / n ≤ lin % n)
  rw [decide_eq_decide]
  unfold psdCoeff
  rw [if_pos (show (lin % n, lin / n).1 < n ∧ (lin % n, lin / n).2 < n from ⟨hmod, hdiv⟩)]
  rcases Nat.lt_trichotomy (lin / n) (lin % n) with h | h | h
  · rw [if_neg (by simp; omega), if_pos (by simpa using h)]
    exact iff_of_true Q2.invSqrt2_ne_zero (Nat.le_of_lt h)
  · rw [if_pos (by simpa using h.symm)]
    exact iff_of_true Q2.half_ne_zero (Nat.le_of_eq h)
  · rw [if_neg (by simp; omega), if_neg (by simpa using Nat.not_lt.mpr (Nat.le_of_lt h))]
    exact iff_of_false (by simp) (by omega)

theorem filter_range_mul (n : ℕ) : ∀ m : ℕ,
    (List.range (n * m)).filter (fun lin => decide (lin / n ≤ lin % n)) =
      (List.range m).flatMap fun j =>
        ((List.range n).filter fun i => decide (j ≤ i)).map fun i => i + j * n
  | 0 => by simp
  | m + 1 => by
    rw [Nat.mul_succ, List.range_add, List.filter_append, filter_range_mul n m,
      List.range_succ, List.flatMap_append]
    congr 1
    simp only [List.flatMap_cons, List.flatMap_nil, List.append_nil]
    rw [List.filter_map]
    rw [List.filter_congr (q := fun i => decide (m ≤ i)) ?_]
    · refine List.map_congr_left ?_
      intro i _
      show n * m + i = i + m * n
      rw [Nat.add_comm, Nat.mul_comm]
    · intro i hi
      rw [List.mem_range] at hi
      show decide ((n * m + i) / n ≤ (n * m + i) % n) = decide (m ≤ i)
      rw [Nat.add_comm (n * m) i, Nat.mul_comm n m, ravelF_mod hi, ravelF_div hi]

theorem mem_lowerTriColMajor {n i j : ℕ} :
    (i, j) ∈ lowerTriColMajor n ↔ j ≤ i ∧ i < n := by
  simp only [lowerTriColMajor, List.mem_flatMap, List.mem_map, List.mem_filter,
    List.mem_range, decide_eq_true_eq, Prod.mk.injEq]
  constructor
  · rintro ⟨j', hj', i', ⟨hi', hle⟩, rfl, rfl⟩
    exact ⟨hle, hi'⟩
  · rintro ⟨hle, hi⟩
    exact ⟨j, by omega, i, ⟨hi, hle⟩, rfl, rfl⟩

theorem lowerLins_eq (n : ℕ) :
    (List.range (n * n)).filter (fun lin => decide (lin / n ≤ lin % n)) =
      (lowerTriColMajor n).map (ravelF n) := by
  rw [filter_range_mul n n]
  unfold lowerTriColMajor
  rw [List.map_flatMap]
  congr 1
  funext j
  rw [List.map_map]
  rfl

theorem length_filter_le (n j : ℕ) :
    ((List.range n).filter fun i => decide (j ≤ i)).length = n - j := by
  induction n with
  | zero => simp
  | succ n ih =>
    rw [List.range_succ, List.filter_append, List.length_append, ih]
    by_cases h : j ≤ n
    · simp [h]
      omega
    · simp [h]
      omega

theorem length_lowerTriColMajor (n : ℕ) :
    (lowerTriColMajor n).length = n * (n + 1) / 2 := by
  unfold lowerTriColMajor
  rw [List.length_flatMap]
  simp only [Function.comp_def]
  have e1 : ((List.range n).map fun j =>
      (((List.range n).filter fun i => decide (j ≤ i)).map fun i => (i, j)).length) =
      (List.range n).map fun j => n - j := by
    refine List.map_congr_left ?_
    intro j _
    rw [List.length_map, length_filter_le]
  rw [e1]
  have e2 : ((List.range n).map fun j => n - j).sum = ∑ j ∈ Finset.range n, (n - j) := by
    simp [Finset.sum, Multiset.range]
  rw [e2, ← Finset.sum_range_reflect (fun j => n - j) n]
  have e3 : ∀ j ∈ Finset.range n, n - (n - 1 - j) = j + 1 := by
    intro j hj
    rw [Finset.mem_range] at hj
    omega
  rw [Finset.sum_congr rfl e3]
  have e4 : ∑ j ∈ Finset.range n, (j + 1) = (∑ j ∈ Finset.range n, j) + n := by
    rw [Finset.sum_add_distrib]
    simp
  rw [e4]
  have e5 := Finset.sum_range_id_mul_two n
  cases n with
  | zero => simp
  | succ k =>
    have e6 : (∑ j ∈ Finset.range (k + 1), j) * 2 = (k + 1) * k := by
      have := Finset.sum_range_id_mul_two (k + 1)
      simpa using this
    have hk : (k + 1) * ((k + 1) + 1) = (k + 1) * k + 2 * (k + 1) := by ring
    omega

theorem Q2.half_double (x : Q2) : Q2.half * (x + x) = x := by
  obtain ⟨xa, xb⟩ := x
  unfold Q2.half
  rw [Q2.add_mk, Q2.mul_mk, Q2.mk.injEq]
  constructor <;> ring

theorem Q2.invSqrt2_double (x : Q2) : Q2.invSqrt2 * (x + x) = Q2.sqrt2 * x := by
  obtain ⟨xa, xb⟩ := x
  unfold Q2.invSqrt2 Q2.sqrt2
  rw [Q2.add_mk, Q2.mul_mk, Q2.mul_mk, Q2.mk.injEq]
  constructor <;> ring

theorem C2_main (n : ℕ) (M : ℕ → ℕ → Q2) (hM : ∀ i j, M i j = M j i) :
    forwardPsdVec n M =
      (lowerTriColMajor n).map fun p =>
        if p.1 = p.2 then M p.1 p.2 else Q2.sqrt2 * M p.1 p.2 := by
  unfold forwardPsdVec cscApply scaled_lower_tri
  rw [val_arr_eq, col_arr_eq, lowerLins_eq, List.map_map, List.zip_map', List.map_map]
  refine List.map_congr_left ?_
  rintro ⟨i, j⟩ hp
  rw [mem_lowerTriColMajor] at hp
  obtain ⟨hle, hi⟩ := hp
  show psdCoeff n (ravelF n (i, j) % n, ravelF n (i, j) / n) *
      vecF n (fun i j => M i j + M j i) (ravelF n (i, j)) = _
  have hm : ravelF n (i, j) % n = i := ravelF_mod hi
  have hd : ravelF n (i, j) / n = j := ravelF_div hi
  unfold vecF
  rw [hm, hd]
  unfold psdCoeff
  rw [if_pos (show (i, j).1 < n ∧ (i, j).2 < n from ⟨hi, by omega⟩)]
  simp only
  by_cases he : i = j
  · subst he
    rw [if_pos rfl, if_pos rfl]
    exact Q2.half_double _
  · rw [if_neg he, if_neg he, if_pos (by omega : j < i)]
    rw [hM j i]
    exact Q2.invSqrt2_double _

/-- C2 (amended): the forward PSD vectorization of a symmetric `n×n` matrix
lists the lower-triangular entries in column-major order, with the diagonal
unscaled and every off-diagonal entry scaled by √2 (the coefficient `1/√2`
applied to the doubled symmetric sum); the vector has length `n(n+1)/2`, the
`n = 2` identity maps to `[1, 0, 1]`, and the all-ones 2×2 matrix has
off-diagonal vectorized entry √2. -/
theorem C2_forward_scaling (n : ℕ) (M : ℕ → ℕ → Q2) (hM : ∀ i j, M i j = M j i) :
    (forwardPsdVec n M =
      (lowerTriColMajor n).map fun p =>
        if p.1 = p.2 then M p.1 p.2 else Q2.sqrt2 * M p.1 p.2) ∧
    (forwardPsdVec n M).length = n * (n + 1) / 2 ∧
    forwardPsdVec 2 (fun i j => if i = j then 1 else 0) = [1, 0, 1] ∧
    (forwardPsdVec 2 fun _ _ => 1)[1]? = some Q2.sqrt2 := by
  refine ⟨C2_main n M hM, ?_, ?_, ?_⟩
  · rw [C2_main n M hM, List.length_map, length_lowerTriColMajor]
  · with_unfolding_all decide
  · with_unfolding_all decide

/-- C2 witness: the amended statement instantiated at a concrete symmetric
2×2 matrix. -/
theorem C2_forward_scaling_witness :
    (forwardPsdVec 2 sym2 =
      (lowerTriColMajor 2).map fun p =>
        if p.1 = p.2 then sym2 p.1 p.2 else Q2.sqrt2 * sym2 p.1 p.2) ∧
    (forwardPsdVec 2 sym2).length = 2 * (2 + 1) / 2 ∧
    forwardPsdVec 2 (fun i j => if i = j then 1 else 0) = [1, 0, 1] ∧
    (forwardPsdVec 2 fun _ _ => 1)[1]? = some Q2.sqrt2 :=
  C2_forward_scaling 2 sym2 (fun i j => by
    by_cases h : i = j
    · subst h; rfl
    · rw [sym2, sym2, if_neg h, if_neg fun e => h e.symm])

/-- C2 counterexample: the off-diagonal vectorized entry of the all-ones 2×2
matrix is √2, not `1/√2` as the claim states. -/
theorem C2_counterexample :
    (forwardPsdVec 2 fun _ _ => 1)[1]? = some Q2.sqrt2 ∧
    (forwardPsdVec 2 fun _ _ => 1)[1]? ≠ some Q2.invSqrt2 ∧
    Q2.sqrt2 ≠ Q2.invSqrt2 := by
  with_unfolding_all decide
